import Mathlib

/-!
Verification of the concurrency core of the lensisku-go backend.

Two components are embedded shallowly:

* `Jbovlaste` — the SSE client registry (`broadcaster.go`): a map from
  client IDs to per-client state (a buffered event channel of capacity 32,
  a buffered cancel channel of capacity 1, and a cancellation flag).
  Each public method (`NewClient`, `Broadcast`, `CancelImport`,
  `RemoveClient`, `ListActiveImports`, `GetClientSSEChannel`) is modelled
  as a pure function on the registry state; a method that in Go mutates
  the registry returns the successor state together with its error value.
  The mutex discipline of the source (registry RWMutex acquired before the
  per-client mutex) makes each public operation atomic with respect to the
  registry, which is what the sequential embedding captures.

* `Background` — the embedding-calculator pipeline
  (`StartEmbeddingCalculatorService` / `fetchAndSendDefinitions`): the
  orchestrator goroutine, the three processor workers, the resultsChan
  closer goroutine and the updater goroutine are modelled as a labelled
  transition system over an explicit `PipelineState`.  Channels are
  FIFO buffers with a closed flag; a blocking receive is a transition
  enabled only when the buffer is nonempty; `range ch` termination is a
  transition enabled only when the channel is closed and drained; a
  send on a closed channel (a fatal runtime error in Go) sets an explicit
  `panicked` flag, and we prove it unreachable.
-/

namespace Jbovlaste

/-- `SSEEvent` from `sse_event.go`: the payload is an opaque string. -/
structure SSEEvent where
  Data : String
deriving DecidableEq, Repr

/-- `NewSSEEvent` from `sse_event.go`. -/
def NewSSEEvent (data : String) : SSEEvent :=
  { Data := data }

/-- Capacity of a client's event channel: `make(chan SSEEvent, 32)`. -/
def sseChannelCap : Nat := 32

/-- Capacity of a client's cancel channel: `make(chan bool, 1)`. -/
def cancelChannelCap : Nat := 1

/-- `ClientInfo` from `broadcaster.go`.  The two channels are modelled by
their buffered contents (oldest first).  A channel of a registered client
is never closed in the source (`RemoveClient` closes both channels and in
the same critical section deletes the map entry), so no closed flag is
needed for registered entries. -/
structure ClientInfo where
  sseChannel : List SSEEvent
  cancelChannel : List Bool
  isCancelled : Bool
deriving DecidableEq, Repr

/-- `Broadcaster` from `broadcaster.go`: the `clients` map, modelled as an
association list (Go map insertion overwrites the key; lookup returns the
first, i.e. the current, binding). -/
structure Broadcaster where
  clients : List (String × ClientInfo)
deriving DecidableEq, Repr

/-- `NewBroadcaster`: empty registry. -/
def NewBroadcaster : Broadcaster :=
  { clients := [] }

/-- Go map read `b.clients[clientID]`. -/
def lookupClient : List (String × ClientInfo) → String → Option ClientInfo
  | [], _ => none
  | (k, v) :: rest, clientID => if k = clientID then some v else lookupClient rest clientID

/-- Registry lookup. -/
def Broadcaster.lookup (b : Broadcaster) (clientID : String) : Option ClientInfo :=
  lookupClient b.clients clientID

/-- Go map assignment `b.clients[clientID] = clientInfo` for a key already
present: every binding of the key is replaced by the new value. -/
def Broadcaster.setClient (b : Broadcaster) (clientID : String) (info : ClientInfo) : Broadcaster :=
  { clients := b.clients.map (fun p => (p.1, if p.1 = clientID then info else p.2)) }

/-- `Broadcaster.NewClient`: registers a fresh session under `clientID`
(the source draws the ID from a UUID generator, which is external; the ID
is therefore a parameter).  The new session has an empty event buffer, an
empty cancel buffer and `isCancelled = false`. -/
def Broadcaster.NewClient (b : Broadcaster) (clientID : String) : Broadcaster :=
  { clients :=
      (clientID, { sseChannel := [], cancelChannel := [], isCancelled := false })
        :: b.clients.filter (fun p => p.1 ≠ clientID) }

/-- Errors returned by `Broadcaster.Broadcast`. -/
inductive BroadcastError where
  | clientNotFound (clientID : String)
  | sendFailed (clientID : String)
deriving DecidableEq, Repr

/-- Errors returned by `Broadcaster.CancelImport`. -/
inductive CancelError where
  | clientNotFound (clientID : String)
  | alreadyCancelled (clientID : String)
  | signalSendFailed (clientID : String)
deriving DecidableEq, Repr

/-- `Broadcaster.Broadcast` from `broadcaster.go`: look the client up; if
absent return `client ID not found`; if the client is cancelled return
`nil` without touching the event buffer; otherwise attempt a non-blocking
send on the event channel — append when the buffer has room, return the
`failed to send SSE` error when it is full. -/
def Broadcaster.Broadcast (b : Broadcaster) (clientID : String) (event : SSEEvent) :
    Option BroadcastError × Broadcaster :=
  match b.lookup clientID with
  | none => (some (.clientNotFound clientID), b)
  | some clientInfo =>
    if clientInfo.isCancelled then
      (none, b)
    else if clientInfo.sseChannel.length < sseChannelCap then
      (none, b.setClient clientID
        { clientInfo with sseChannel := clientInfo.sseChannel ++ [event] })
    else
      (some (.sendFailed clientID), b)

/-- `Broadcaster.CancelImport` from `broadcaster.go`: look the client up;
if absent return `not found`; if already cancelled return the
`already cancelled` error; otherwise set `isCancelled := true` and attempt
a non-blocking send of `true` on the cancel channel — on a full buffer the
flag remains set and the `failed to send cancellation signal` error is
returned. -/
def Broadcaster.CancelImport (b : Broadcaster) (clientID : String) :
    Option CancelError × Broadcaster :=
  match b.lookup clientID with
  | none => (some (.clientNotFound clientID), b)
  | some clientInfo =>
    if clientInfo.isCancelled then
      (some (.alreadyCancelled clientID), b)
    else
      if clientInfo.cancelChannel.length < cancelChannelCap then
        (none, b.setClient clientID
          { clientInfo with isCancelled := true
                          , cancelChannel := clientInfo.cancelChannel ++ [true] })
      else
        (some (.signalSendFailed clientID), b.setClient clientID
          { clientInfo with isCancelled := true })

/-- `Broadcaster.RemoveClient` from `broadcaster.go`: when the client is
present, close both of its channels and delete the map entry; when
absent, do nothing.  In the sequential embedding closing the channels of
the deleted entry has no further observable effect, so removal is map
deletion. -/
def Broadcaster.RemoveClient (b : Broadcaster) (clientID : String) : Broadcaster :=
  { clients := b.clients.filter (fun p => p.1 ≠ clientID) }

/-- `Broadcaster.ListActiveImports`: IDs of the registered clients whose
`isCancelled` flag is false. -/
def Broadcaster.ListActiveImports (b : Broadcaster) : List String :=
  (b.clients.filter (fun p => !p.2.isCancelled)).map (fun p => p.1)

/-- `Broadcaster.GetClientSSEChannel`: the event channel of a registered
client, `none` when the client does not exist. -/
def Broadcaster.GetClientSSEChannel (b : Broadcaster) (clientID : String) :
    Option (List SSEEvent) :=
  (b.lookup clientID).map (fun info => info.sseChannel)

/-- Registry states produced by the public API from `NewBroadcaster`. -/
inductive Broadcaster.Reachable : Broadcaster → Prop where
  | init : Broadcaster.Reachable NewBroadcaster
  | newClient {b : Broadcaster} (clientID : String) :
      Broadcaster.Reachable b → Broadcaster.Reachable (b.NewClient clientID)
  | broadcast {b : Broadcaster} (clientID : String) (event : SSEEvent) :
      Broadcaster.Reachable b → Broadcaster.Reachable (b.Broadcast clientID event).2
  | cancelImport {b : Broadcaster} (clientID : String) :
      Broadcaster.Reachable b → Broadcaster.Reachable (b.CancelImport clientID).2
  | removeClient {b : Broadcaster} (clientID : String) :
      Broadcaster.Reachable b → Broadcaster.Reachable (b.RemoveClient clientID)

/-- The cancel channel of a not-yet-cancelled client is empty: the only
send on it happens on the false-to-true transition of `isCancelled`. -/
def BInv (b : Broadcaster) : Prop :=
  ∀ p ∈ b.clients, p.2.isCancelled = false → p.2.cancelChannel = []

theorem lookupClient_mem {l : List (String × ClientInfo)} {clientID : String}
    {info : ClientInfo} (h : lookupClient l clientID = some info) :
    (clientID, info) ∈ l := by
  induction l with
  | nil => simp [lookupClient] at h
  | cons p rest ih =>
    obtain ⟨k, v⟩ := p
    by_cases hk : k = clientID
    · subst hk
      simp [lookupClient] at h
      subst h
      exact List.mem_cons_self _ _
    · simp [lookupClient, hk] at h
      exact List.mem_cons_of_mem _ (ih h)

theorem lookupClient_set {l : List (String × ClientInfo)} {clientID : String}
    {info : ClientInfo} (h : lookupClient l clientID = some info)
    (v : ClientInfo) :
    lookupClient (l.map (fun p => (p.1, if p.1 = clientID then v else p.2))) clientID
      = some v := by
  induction l with
  | nil => simp [lookupClient] at h
  | cons p rest ih =>
    obtain ⟨k, w⟩ := p
    by_cases hk : k = clientID
    · subst hk
      simp [lookupClient]
    · simp [lookupClient, hk] at h ⊢
      exact ih h

theorem lookupClient_filter_ne (l : List (String × ClientInfo)) (clientID : String) :
    lookupClient (l.filter (fun p => p.1 ≠ clientID)) clientID = none := by
  induction l with
  | nil => simp [lookupClient]
  | cons p rest ih =>
    obtain ⟨k, v⟩ := p
    by_cases hk : k = clientID
    · subst hk
      simpa using ih
    · simpa [lookupClient, hk] using ih

theorem binv_setClient_cancelled {b : Broadcaster} (hb : BInv b) (clientID : String)
    {info : ClientInfo} (hinfo : info.isCancelled = false → info.cancelChannel = []) :
    BInv (b.setClient clientID info) := by
  intro p hp hflag
  simp only [Broadcaster.setClient, List.mem_map] at hp
  obtain ⟨q, hq, hpq⟩ := hp
  by_cases hk : q.1 = clientID
  · rw [← hpq] at hflag ⊢
    simp only [hk, if_true] at hflag ⊢
    exact hinfo hflag
  · rw [← hpq] at hflag ⊢
    simp only [hk, if_false] at hflag ⊢
    exact hb q hq hflag

theorem binv_preserved_newClient {b : Broadcaster} (hb : BInv b) (clientID : String) :
    BInv (b.NewClient clientID) := by
  intro p hp hflag
  simp only [Broadcaster.NewClient, List.mem_cons] at hp
  rcases hp with hp | hp
  · simp [hp]
  · exact hb p (List.mem_of_mem_filter hp) hflag

theorem binv_preserved_broadcast {b : Broadcaster} (hb : BInv b)
    (clientID : String) (event : SSEEvent) :
    BInv (b.Broadcast clientID event).2 := by
  unfold Broadcaster.Broadcast
  cases hl : b.lookup clientID with
  | none => simpa using hb
  | some clientInfo =>
    by_cases hc : clientInfo.isCancelled
    · simpa [hc] using hb
    · by_cases hlen : clientInfo.sseChannel.length < sseChannelCap
      · simp only [hc, hlen, if_true, if_false, Bool.false_eq_true]
        refine binv_setClient_cancelled hb clientID ?_
        intro hflag
        exact hb (clientID, clientInfo) (lookupClient_mem hl) (by simpa using hc)
      · simpa [hc, hlen] using hb

theorem binv_preserved_cancelImport {b : Broadcaster} (hb : BInv b) (clientID : String) :
    BInv (b.CancelImport clientID).2 := by
  unfold Broadcaster.CancelImport
  cases hl : b.lookup clientID with
  | none => simpa using hb
  | some clientInfo =>
    by_cases hc : clientInfo.isCancelled
    · simpa [hc] using hb
    · by_cases hlen : clientInfo.cancelChannel.length < cancelChannelCap
      all_goals
        simp only [hc, hlen, if_true, if_false, Bool.false_eq_true]
        refine binv_setClient_cancelled hb clientID ?_
        intro hflag
        simp at hflag

theorem binv_preserved_removeClient {b : Broadcaster} (hb : BInv b) (clientID : String) :
    BInv (b.RemoveClient clientID) := by
  intro p hp hflag
  exact hb p (List.mem_of_mem_filter hp) hflag

theorem binv_of_reachable {b : Broadcaster} (hb : Broadcaster.Reachable b) : BInv b := by
  induction hb with
  | init => intro p hp _; simp [NewBroadcaster] at hp
  | newClient clientID _ ih => exact binv_preserved_newClient ih clientID
  | broadcast clientID event _ ih => exact binv_preserved_broadcast ih clientID event
  | cancelImport clientID _ ih => exact binv_preserved_cancelImport ih clientID
  | removeClient clientID _ ih => exact binv_preserved_removeClient ih clientID

theorem lookupClient_filter_of_none {l : List (String × ClientInfo)} {clientID : String}
    (h : lookupClient l clientID = none) (p : String × ClientInfo → Bool) :
    lookupClient (l.filter p) clientID = none := by
  induction l with
  | nil => simp [lookupClient]
  | cons q rest ih =>
    obtain ⟨k, v⟩ := q
    by_cases hk : k = clientID
    · subst hk
      simp [lookupClient] at h
    · simp only [lookupClient, hk, if_false] at h
      by_cases hp : p (k, v)
      · simpa [List.filter, hp, lookupClient, hk] using ih h
      · simpa [List.filter, hp] using ih h

theorem keys_ne_of_lookup_none {l : List (String × ClientInfo)} {clientID : String}
    (h : lookupClient l clientID = none) : ∀ p ∈ l, p.1 ≠ clientID := by
  induction l with
  | nil => simp
  | cons q rest ih =>
    obtain ⟨k, v⟩ := q
    by_cases hk : k = clientID
    · subst hk
      simp [lookupClient] at h
    · simp only [lookupClient, hk, if_false] at h
      intro p hp
      rcases List.mem_cons.mp hp with hp | hp
      · subst hp; exact hk
      · exact ih h p hp

/-- C3: on a registered session, the `cancelled` flag transitions
false-to-true exactly once.  While the flag is false, `CancelImport`
returns no error, sets the flag and places the single `true` signal in the
(previously empty) cancel buffer; once the flag is true, every further
`CancelImport` on the still-registered session returns the
`already cancelled` error and leaves the whole registry unchanged. -/
theorem cancelImport_flag_transitions_exactly_once (b : Broadcaster)
    (hb : Broadcaster.Reachable b) (clientID : String) (info : ClientInfo)
    (h : b.lookup clientID = some info) :
    (info.isCancelled = false →
      (b.CancelImport clientID).1 = none ∧
      (b.CancelImport clientID).2.lookup clientID =
        some { info with isCancelled := true, cancelChannel := [true] }) ∧
    (info.isCancelled = true →
      b.CancelImport clientID = (some (.alreadyCancelled clientID), b)) := by
  constructor
  · intro hfalse
    have hchan : info.cancelChannel = [] :=
      binv_of_reachable hb (clientID, info) (lookupClient_mem h) hfalse
    unfold Broadcaster.CancelImport
    rw [h]
    simp only [hfalse, Bool.false_eq_true, if_false, hchan, List.length_nil,
      List.nil_append, cancelChannelCap, Nat.zero_lt_one, if_true]
    refine ⟨trivial, ?_⟩
    have := lookupClient_set h
      { info with isCancelled := true, cancelChannel := [true] }
    simpa [Broadcaster.lookup, Broadcaster.setClient, hchan] using this
  · intro htrue
    unfold Broadcaster.CancelImport
    rw [h]
    simp [htrue]

/-- Witness for C3: in the registry holding the single fresh session
`session-a`, the first cancellation succeeds and the second returns the
`already cancelled` error without changing the registry. -/
theorem cancelImport_flag_transitions_exactly_once_witness :
    ((NewBroadcaster.NewClient "session-a").CancelImport "session-a").1 = none ∧
    (((NewBroadcaster.NewClient "session-a").CancelImport "session-a").2.CancelImport
        "session-a")
      = (some (.alreadyCancelled "session-a"),
         ((NewBroadcaster.NewClient "session-a").CancelImport "session-a").2) := by
  refine ⟨((cancelImport_flag_transitions_exactly_once
      (NewBroadcaster.NewClient "session-a")
      (Broadcaster.Reachable.newClient "session-a" Broadcaster.Reachable.init)
      "session-a" { sseChannel := [], cancelChannel := [], isCancelled := false }
      (by decide)).1 rfl).1, ?_⟩
  exact (cancelImport_flag_transitions_exactly_once
      ((NewBroadcaster.NewClient "session-a").CancelImport "session-a").2
      (Broadcaster.Reachable.cancelImport "session-a"
        (Broadcaster.Reachable.newClient "session-a" Broadcaster.Reachable.init))
      "session-a" { sseChannel := [], cancelChannel := [true], isCancelled := true }
      (by decide)).2 rfl

/-- C4: after `RemoveClient` on a registered session, the registry entry is
gone: any subsequent `Broadcast` and `CancelImport` for that ID return the
`not found` error and leave the state unchanged, and registering a new
session under a different ID keeps the removed ID unresolvable. -/
theorem removeClient_isolates_session (b : Broadcaster) (clientID : String)
    (info : ClientInfo) (h : b.lookup clientID = some info) (event : SSEEvent) :
    (b.RemoveClient clientID).Broadcast clientID event
      = (some (.clientNotFound clientID), b.RemoveClient clientID) ∧
    (b.RemoveClient clientID).CancelImport clientID
      = (some (.clientNotFound clientID), b.RemoveClient clientID) ∧
    ∀ newID : String, newID ≠ clientID →
      ((b.RemoveClient clientID).NewClient newID).lookup clientID = none := by
  have hnone : (b.RemoveClient clientID).lookup clientID = none :=
    lookupClient_filter_ne b.clients clientID
  refine ⟨?_, ?_, ?_⟩
  · unfold Broadcaster.Broadcast
    rw [hnone]
  · unfold Broadcaster.CancelImport
    rw [hnone]
  · intro newID hne
    show lookupClient _ _ = none
    simp only [Broadcaster.NewClient, lookupClient, hne, if_false]
    exact lookupClient_filter_of_none hnone _

/-- Witness for C4: removing `session-d` makes `Broadcast` and
`CancelImport` on it fail with `not found`, also after `session-e` is
registered. -/
theorem removeClient_isolates_session_witness :
    (((NewBroadcaster.NewClient "session-d").RemoveClient "session-d").Broadcast
        "session-d" (NewSSEEvent "e")
      = (some (.clientNotFound "session-d"),
         (NewBroadcaster.NewClient "session-d").RemoveClient "session-d")) ∧
    (((NewBroadcaster.NewClient "session-d").RemoveClient "session-d").CancelImport
        "session-d"
      = (some (.clientNotFound "session-d"),
         (NewBroadcaster.NewClient "session-d").RemoveClient "session-d")) ∧
    ((((NewBroadcaster.NewClient "session-d").RemoveClient "session-d").NewClient
        "session-e").lookup "session-d" = none) := by
  obtain ⟨h1, h2, h3⟩ := removeClient_isolates_session
    (NewBroadcaster.NewClient "session-d") "session-d"
    { sseChannel := [], cancelChannel := [], isCancelled := false }
    (by decide) (NewSSEEvent "e")
  exact ⟨h1, h2, h3 "session-e" (by decide)⟩

/-- C5: a `Broadcast` to a registered session whose `cancelled` flag is set
returns no error and delivers nothing: the registry, and in particular the
session's event buffer, is unchanged. -/
theorem broadcast_to_cancelled_is_silent_noop (b : Broadcaster) (clientID : String)
    (info : ClientInfo) (h : b.lookup clientID = some info)
    (hc : info.isCancelled = true) (event : SSEEvent) :
    b.Broadcast clientID event = (none, b) := by
  unfold Broadcaster.Broadcast
  rw [h]
  simp [hc]

/-- Witness for C5: broadcasting to the cancelled session `session-c`
succeeds without touching the registry. -/
theorem broadcast_to_cancelled_is_silent_noop_witness :
    (Broadcaster.mk [("session-c",
        { sseChannel := [], cancelChannel := [true], isCancelled := true })]).Broadcast
      "session-c" (NewSSEEvent "hello")
      = (none, Broadcaster.mk [("session-c",
          { sseChannel := [], cancelChannel := [true], isCancelled := true })]) :=
  broadcast_to_cancelled_is_silent_noop
    (Broadcaster.mk [("session-c",
      { sseChannel := [], cancelChannel := [true], isCancelled := true })])
    "session-c"
    { sseChannel := [], cancelChannel := [true], isCancelled := true }
    (by decide) rfl (NewSSEEvent "hello")

/-- C6: a `Broadcast` to a registered, non-cancelled session whose event
buffer already holds `sseChannelCap = 32` events returns the `send failed`
error and changes nothing — the non-blocking send finds the buffer full
and takes the `default` branch. -/
theorem broadcast_to_full_buffer_fails (b : Broadcaster) (clientID : String)
    (info : ClientInfo) (h : b.lookup clientID = some info)
    (hc : info.isCancelled = false)
    (hfull : info.sseChannel.length = sseChannelCap) (event : SSEEvent) :
    b.Broadcast clientID event = (some (.sendFailed clientID), b) := by
  unfold Broadcaster.Broadcast
  rw [h]
  simp [hc, hfull]

/-- Witness for C6: one more broadcast to a session whose buffer holds 32
events fails with the `send failed` error. -/
theorem broadcast_to_full_buffer_fails_witness :
    (Broadcaster.mk [("session-f",
        { sseChannel := List.replicate 32 (NewSSEEvent "x"), cancelChannel := [],
          isCancelled := false })]).Broadcast "session-f" (NewSSEEvent "one-more")
      = (some (.sendFailed "session-f"),
         Broadcaster.mk [("session-f",
           { sseChannel := List.replicate 32 (NewSSEEvent "x"), cancelChannel := [],
             isCancelled := false })]) :=
  broadcast_to_full_buffer_fails
    (Broadcaster.mk [("session-f",
      { sseChannel := List.replicate 32 (NewSSEEvent "x"), cancelChannel := [],
        isCancelled := false })])
    "session-f"
    { sseChannel := List.replicate 32 (NewSSEEvent "x"), cancelChannel := [],
      isCancelled := false }
    (by decide) rfl (by decide) (NewSSEEvent "one-more")

/-- C9: `CancelImport` on a registered session never fails with the
`failed to send cancellation signal` error: in every state reachable
through the public API, a non-cancelled session's capacity-1 cancel buffer
is empty (the buffer is written only on the unique false-to-true flag
transition), so the non-blocking send always finds the free slot. -/
theorem cancelImport_signal_send_never_fails (b : Broadcaster)
    (hb : Broadcaster.Reachable b) (clientID : String) (info : ClientInfo)
    (h : b.lookup clientID = some info) :
    (b.CancelImport clientID).1 ≠ some (.signalSendFailed clientID) := by
  unfold Broadcaster.CancelImport
  rw [h]
  by_cases hc : info.isCancelled
  · simp [hc]
  · have hchan : info.cancelChannel = [] :=
      binv_of_reachable hb (clientID, info) (lookupClient_mem h) (by simpa using hc)
    simp [hc, hchan, cancelChannelCap]

/-- Witness for C9: cancelling the freshly registered session
`session-g` does not produce the `signal send failed` error. -/
theorem cancelImport_signal_send_never_fails_witness :
    ((NewBroadcaster.NewClient "session-g").CancelImport "session-g").1
      ≠ some (.signalSendFailed "session-g") :=
  cancelImport_signal_send_never_fails (NewBroadcaster.NewClient "session-g")
    (Broadcaster.Reachable.newClient "session-g" Broadcaster.Reachable.init)
    "session-g" { sseChannel := [], cancelChannel := [], isCancelled := false }
    (by decide)

/-- C10: `RemoveClient` with an unregistered session ID returns normally
and is a complete no-op: the registry map — and with it the state of every
existing session — is exactly unchanged, and no channel is touched. -/
theorem removeClient_absent_is_noop (b : Broadcaster) (clientID : String)
    (h : b.lookup clientID = none) : b.RemoveClient clientID = b := by
  have hne := keys_ne_of_lookup_none h
  unfold Broadcaster.RemoveClient
  cases b with
  | mk clients =>
    simp only [Broadcaster.mk.injEq]
    apply List.filter_eq_self.mpr
    intro p hp
    simpa using hne p hp

/-- Witness for C10: removing the unknown session `ghost` from a registry
holding only `session-h` leaves the registry exactly as it was. -/
theorem removeClient_absent_is_noop_witness :
    (Broadcaster.mk [("session-h",
        { sseChannel := [], cancelChannel := [], isCancelled := false })]).RemoveClient
      "ghost"
      = Broadcaster.mk [("session-h",
          { sseChannel := [], cancelChannel := [], isCancelled := false })] :=
  removeClient_absent_is_noop
    (Broadcaster.mk [("session-h",
      { sseChannel := [], cancelChannel := [], isCancelled := false })])
    "ghost" (by decide)

end Jbovlaste

namespace Background

/-- `numProcessorWorkers = 3` from `embedding_calculator.go`. -/
def numProcessorWorkers : Nat := 3

/-- Capacity of `defsToProcessChan`: `make(chan DefinitionToEmbed, 10)`. -/
def defsChanCap : Nat := 10

/-- Capacity of `resultsChan`: `make(chan EmbeddingResult, 10)`. -/
def resultsChanCap : Nat := 10

/-- `DefinitionToEmbed` from `embedding_calculator.go`. -/
structure DefinitionToEmbed where
  ID : Int
  Text : String
deriving DecidableEq, Repr

/-- `EmbeddingResult` from `embedding_calculator.go`.  The numeric vector
is modelled over `ℚ`; the claims under verification depend only on the
`DefinitionID` carried by the result, never on the numeric values, so the
float32 rounding of the source is abstracted away. -/
structure EmbeddingResult where
  DefinitionID : Int
  Embedding : List Rat
  Error : Option String
deriving DecidableEq, Repr

/-- The worker's simulated computation: `embedding[j] = float32(def.ID) +
float32(j)*0.1 + float32(workerID)*0.01` for `j < 3`, packaged with the
item's ID and a nil error. -/
def computeEmbedding (workerID : Nat) (d : DefinitionToEmbed) : EmbeddingResult :=
  { DefinitionID := d.ID
  , Embedding := (List.range 3).map
      (fun j => (d.ID : Rat) + (j : Rat) / 10 + (workerID : Rat) / 100)
  , Error := none }

/-- The simulated fetch of `fetchAndSendDefinitions`: two definitions whose
IDs are `time.Now().Second()*100 + 1` and `... + 2`.  `now` is the wall
clock in whole seconds; `Second()` is `now % 60`. -/
def dummyDefinitions (now : Nat) : List DefinitionToEmbed :=
  [ { ID := ((now % 60) * 100 : Nat) + 1
    , Text := s!"Definition fetched at second {now}" }
  , { ID := ((now % 60) * 100 : Nat) + 2
    , Text := "Another sample definition text for embedding." } ]

/-- A Go channel: FIFO buffer plus closed flag.  Send appends at the back,
receive takes the front; receiving from a closed channel is allowed until
the buffer is drained. -/
structure GoChan (α : Type) where
  buf : List α
  closed : Bool
deriving DecidableEq, Repr

/-- Control state of one processor worker: blocked at
`for def := range defsToProcessChan` (`waiting`), holding a computed
result at `resultsChan <- result` (`sending`), or exited after the range
loop ended (`exited`, the point where `processorsWg.Done()` runs). -/
inductive WorkerPhase where
  | waiting
  | sending (result : EmbeddingResult)
  | exited
deriving DecidableEq, Repr

/-- Control state of the updater goroutine. -/
inductive UpdaterPhase where
  | running
  | exited
deriving DecidableEq, Repr

/-- Control state of the orchestrator goroutine: in the select loop
(`running`), inside a synchronous `fetchAndSendDefinitions` call with the
listed definitions still to attempt (`fetching`), blocked in
`mainWg.Wait()` after `close(defsToProcessChan)` (`waitingMain`), or
returned (`returned`). -/
inductive OrchPhase where
  | running
  | fetching (remaining : List DefinitionToEmbed)
  | waitingMain
  | returned
deriving DecidableEq, Repr

/-- Global state of the embedding pipeline.  `enqueued` and `droppedLog`
are history variables recording, in order, the definitions successfully
sent into `defsToProcessChan` and those dropped by the fetcher's
non-blocking send; `updaterLog` records every result the updater received;
`panicked` records a send on a closed channel, the fatal runtime error the
shutdown protocol must rule out; `closerDone` records that the dedicated
goroutine guarding `close(resultsChan)` has run. -/
structure PipelineState where
  defsChan : GoChan DefinitionToEmbed
  resultsChan : GoChan EmbeddingResult
  workers : List WorkerPhase
  closerDone : Bool
  updater : UpdaterPhase
  updaterLog : List EmbeddingResult
  orch : OrchPhase
  enqueued : List DefinitionToEmbed
  droppedLog : List DefinitionToEmbed
  panicked : Bool
deriving DecidableEq, Repr

/-- Scheduling events of the pipeline, one per atomic channel or
synchronization operation in the source. -/
inductive PipelineLabel where
  | tick (now : Nat)
  | fetchStep
  | fetchDone
  | stop
  | workerRecv (i : Nat)
  | workerSend (i : Nat)
  | workerExit (i : Nat)
  | closeResults
  | updaterRecv
  | updaterExit
  | orchReturn
deriving DecidableEq, Repr

/-- The state right after `StartEmbeddingCalculatorService` has launched
everything: both channels empty and open, three workers blocked on the
input channel, the updater and the resultsChan closer running, the
orchestrator in its select loop. -/
def initState : PipelineState :=
  { defsChan := { buf := [], closed := false }
  , resultsChan := { buf := [], closed := false }
  , workers := List.replicate numProcessorWorkers WorkerPhase.waiting
  , closerDone := false
  , updater := UpdaterPhase.running
  , updaterLog := []
  , orch := OrchPhase.running
  , enqueued := []
  , droppedLog := []
  , panicked := false }

/-- One atomic step of the pipeline.  `none` means the labelled event is
not enabled in the given state (the goroutine is blocked or at a different
program point).  A send on a closed channel — fatal in Go — is modelled by
setting `panicked`. -/
def step (s : PipelineState) : PipelineLabel → Option PipelineState
  | .tick now =>
    match s.orch with
    | .running => some { s with orch := .fetching (dummyDefinitions now) }
    | _ => none
  | .fetchStep =>
    match s.orch with
    | .fetching (d :: rest) =>
      if s.defsChan.closed = true then
        some { s with panicked := true }
      else if s.defsChan.buf.length < defsChanCap then
        some { s with orch := .fetching rest
                    , defsChan := { s.defsChan with buf := s.defsChan.buf ++ [d] }
                    , enqueued := s.enqueued ++ [d] }
      else
        some { s with orch := .fetching rest
                    , droppedLog := s.droppedLog ++ [d] }
    | _ => none
  | .fetchDone =>
    match s.orch with
    | .fetching [] => some { s with orch := .running }
    | _ => none
  | .stop =>
    match s.orch with
    | .running =>
      some { s with orch := .waitingMain
                  , defsChan := { s.defsChan with closed := true } }
    | _ => none
  | .workerRecv i =>
    match s.workers[i]? with
    | some .waiting =>
      match s.defsChan.buf with
      | d :: rest =>
        some { s with defsChan := { s.defsChan with buf := rest }
                    , workers := s.workers.set i (.sending (computeEmbedding i d)) }
      | [] => none
    | _ => none
  | .workerSend i =>
    match s.workers[i]? with
    | some (.sending r) =>
      if s.resultsChan.closed = true then
        some { s with panicked := true }
      else if s.resultsChan.buf.length < resultsChanCap then
        some { s with resultsChan := { s.resultsChan with buf := s.resultsChan.buf ++ [r] }
                    , workers := s.workers.set i .waiting }
      else
        none
    | _ => none
  | .workerExit i =>
    match s.workers[i]? with
    | some .waiting =>
      if s.defsChan.closed = true ∧ s.defsChan.buf = [] then
        some { s with workers := s.workers.set i .exited }
      else none
    | _ => none
  | .closeResults =>
    if s.closerDone = false ∧ (∀ w ∈ s.workers, w = WorkerPhase.exited) then
      some { s with resultsChan := { s.resultsChan with closed := true }
                  , closerDone := true }
    else none
  | .updaterRecv =>
    match s.updater with
    | .running =>
      match s.resultsChan.buf with
      | r :: rest =>
        some { s with resultsChan := { s.resultsChan with buf := rest }
                    , updaterLog := s.updaterLog ++ [r] }
      | [] => none
    | _ => none
  | .updaterExit =>
    match s.updater with
    | .running =>
      if s.resultsChan.closed = true ∧ s.resultsChan.buf = [] then
        some { s with updater := .exited }
      else none
    | _ => none
  | .orchReturn =>
    match s.orch with
    | .waitingMain =>
      if s.updater = UpdaterPhase.exited then
        some { s with orch := .returned }
      else none
    | _ => none

/-- Run a finite schedule of labels from a state; `none` when some label
in the schedule is not enabled. -/
def runSchedule : List PipelineLabel → PipelineState → Option PipelineState
  | [], s => some s
  | l :: rest, s =>
    match step s l with
    | none => none
    | some t => runSchedule rest t

/-- States of the pipeline reachable from `initState` under arbitrary
interleaving of the goroutines. -/
inductive PReachable : PipelineState → Prop where
  | init : PReachable initState
  | step {s t : PipelineState} (l : PipelineLabel) :
      PReachable s → step s l = some t → PReachable t

theorem preachable_of_runSchedule (ls : List PipelineLabel) {s t : PipelineState}
    (hs : PReachable s) (h : runSchedule ls s = some t) : PReachable t := by
  induction ls generalizing s with
  | nil =>
    simp [runSchedule] at h
    exact h ▸ hs
  | cons l rest ih =>
    simp only [runSchedule] at h
    cases hstep : step s l with
    | none => rw [hstep] at h; exact absurd h (by simp)
    | some u =>
      rw [hstep] at h
      exact ih (PReachable.step l hs hstep) h

/-- Multiset of item IDs of a list of definitions. -/
def idsOfDefs (l : List DefinitionToEmbed) : Multiset Int :=
  (l.map (fun d => d.ID) : List Int)

/-- Multiset of item IDs carried by a list of results. -/
def idsOfResults (l : List EmbeddingResult) : Multiset Int :=
  (l.map (fun r => r.DefinitionID) : List Int)

/-- Multiset of item IDs currently held by workers between their receive
and their send. -/
def workerHeldIds : List WorkerPhase → Multiset Int
  | [] => 0
  | WorkerPhase.sending r :: ws => r.DefinitionID ::ₘ workerHeldIds ws
  | WorkerPhase.waiting :: ws => workerHeldIds ws
  | WorkerPhase.exited :: ws => workerHeldIds ws

theorem idsOfDefs_append (l₁ l₂ : List DefinitionToEmbed) :
    idsOfDefs (l₁ ++ l₂) = idsOfDefs l₁ + idsOfDefs l₂ := by
  simp [idsOfDefs, ← Multiset.coe_add]

theorem idsOfDefs_cons (d : DefinitionToEmbed) (l : List DefinitionToEmbed) :
    idsOfDefs (d :: l) = d.ID ::ₘ idsOfDefs l := by
  simp [idsOfDefs, ← Multiset.cons_coe]

theorem idsOfDefs_singleton (d : DefinitionToEmbed) : idsOfDefs [d] = {d.ID} := by
  simp [idsOfDefs]

theorem idsOfResults_append (l₁ l₂ : List EmbeddingResult) :
    idsOfResults (l₁ ++ l₂) = idsOfResults l₁ + idsOfResults l₂ := by
  simp [idsOfResults, ← Multiset.coe_add]

theorem idsOfResults_cons (r : EmbeddingResult) (l : List EmbeddingResult) :
    idsOfResults (r :: l) = r.DefinitionID ::ₘ idsOfResults l := by
  simp [idsOfResults, ← Multiset.cons_coe]

theorem idsOfResults_singleton (r : EmbeddingResult) :
    idsOfResults [r] = {r.DefinitionID} := by
  simp [idsOfResults]

theorem workerHeldIds_set_sending {ws : List WorkerPhase} {i : Nat}
    (h : ws[i]? = some WorkerPhase.waiting) (r : EmbeddingResult) :
    workerHeldIds (ws.set i (WorkerPhase.sending r))
      = r.DefinitionID ::ₘ workerHeldIds ws := by
  induction ws generalizing i with
  | nil => simp at h
  | cons w ws ih =>
    cases i with
    | zero =>
      simp at h
      subst h
      simp [List.set, workerHeldIds]
    | succ n =>
      simp at h
      cases w with
      | waiting => simpa [List.set, workerHeldIds] using ih h
      | exited => simpa [List.set, workerHeldIds] using ih h
      | sending r' =>
        simp only [List.set, workerHeldIds, ih h]
        exact Multiset.cons_swap _ _ _

theorem workerHeldIds_set_unsend {ws : List WorkerPhase} {i : Nat}
    {r : EmbeddingResult} (h : ws[i]? = some (WorkerPhase.sending r)) :
    workerHeldIds ws
      = r.DefinitionID ::ₘ workerHeldIds (ws.set i WorkerPhase.waiting) := by
  induction ws generalizing i with
  | nil => simp at h
  | cons w ws ih =>
    cases i with
    | zero =>
      simp at h
      subst h
      simp [List.set, workerHeldIds]
    | succ n =>
      simp at h
      cases w with
      | waiting => simpa [List.set, workerHeldIds] using ih h
      | exited => simpa [List.set, workerHeldIds] using ih h
      | sending r' =>
        simp only [List.set, workerHeldIds, ih h]
        exact Multiset.cons_swap _ _ _

theorem workerHeldIds_set_exit {ws : List WorkerPhase} {i : Nat}
    (h : ws[i]? = some WorkerPhase.waiting) :
    workerHeldIds (ws.set i WorkerPhase.exited) = workerHeldIds ws := by
  induction ws generalizing i with
  | nil => simp at h
  | cons w ws ih =>
    cases i with
    | zero =>
      simp at h
      subst h
      simp [List.set, workerHeldIds]
    | succ n =>
      simp at h
      cases w with
      | waiting => simpa [List.set, workerHeldIds] using ih h
      | exited => simpa [List.set, workerHeldIds] using ih h
      | sending r' => simp [List.set, workerHeldIds, ih h]

theorem workerHeldIds_all_exited {ws : List WorkerPhase}
    (h : ∀ w ∈ ws, w = WorkerPhase.exited) : workerHeldIds ws = 0 := by
  induction ws with
  | nil => rfl
  | cons w ws ih =>
    have hw := h w (List.mem_cons_self _ _)
    subst hw
    exact ih (fun w hw => h w (List.mem_cons_of_mem _ hw))

/-- The safety invariant of the pipeline, closed under every transition:
the shutdown-order chain (a worker exits only after the input channel is
closed; the output channel closes only after every worker has exited; the
updater exits only after the output channel is closed and drained; the
orchestrator returns only after the updater has exited), absence of sends
on closed channels, the capacity bound of the input channel, and
conservation of item IDs between the enqueue history, the two channel
buffers, the workers' hands and the updater's log. -/
structure Inv (s : PipelineState) : Prop where
  workersLen : s.workers.length = numProcessorWorkers
  resultsClosedWorkersExited :
    s.resultsChan.closed = true → ∀ w ∈ s.workers, w = WorkerPhase.exited
  workerExitedDefsClosed :
    ∀ w ∈ s.workers, w = WorkerPhase.exited → s.defsChan.closed = true
  updaterExitedResultsClosed :
    s.updater = UpdaterPhase.exited →
      s.resultsChan.closed = true ∧ s.resultsChan.buf = []
  returnedUpdaterExited :
    s.orch = OrchPhase.returned → s.updater = UpdaterPhase.exited
  defsClosedOrchDown :
    s.defsChan.closed = true →
      s.orch = OrchPhase.waitingMain ∨ s.orch = OrchPhase.returned
  allExitedDefsDrained :
    (∀ w ∈ s.workers, w = WorkerPhase.exited) → s.defsChan.buf = []
  defsBufBounded : s.defsChan.buf.length ≤ defsChanCap
  noPanic : s.panicked = false
  accounting :
    idsOfDefs s.enqueued
      = idsOfDefs s.defsChan.buf + workerHeldIds s.workers
          + idsOfResults s.resultsChan.buf + idsOfResults s.updaterLog

theorem inv_init : Inv initState := by
  refine ⟨rfl, ?_, ?_, ?_, ?_, ?_, ?_, ?_, rfl, ?_⟩
  · intro h; cases h
  · intro w hw hex
    rw [List.eq_of_mem_replicate hw] at hex
    cases hex
  · intro h; cases h
  · intro h; cases h
  · intro h; cases h
  · intro hall
    have := hall WorkerPhase.waiting (by simp [initState, numProcessorWorkers])
    cases this
  · simp [initState, defsChanCap]
  · rfl

theorem lt_length_of_getElem? {ws : List WorkerPhase} {i : Nat} {w : WorkerPhase}
    (h : ws[i]? = some w) : i < ws.length := by
  by_contra hge
  rw [List.getElem?_eq_none (by omega)] at h
  cases h

theorem exists_mem_of_workers_length {ws : List WorkerPhase}
    (h : ws.length = numProcessorWorkers) : ∃ w, w ∈ ws := by
  cases ws with
  | nil => simp [numProcessorWorkers] at h
  | cons w ws => exact ⟨w, List.mem_cons_self _ _⟩

theorem inv_step {s t : PipelineState} {l : PipelineLabel}
    (hs : Inv s) (h : step s l = some t) : Inv t := by
  obtain ⟨hlen, hrcw, hwed, huer, hrue, hdco, haed, hbuf, hpan, hacc⟩ := hs
  cases l with
  | tick now =>
    simp only [step] at h
    split at h
    next horch =>
      injection h with h
      subst h
      have hclosed : s.defsChan.closed = false := by
        cases hcl : s.defsChan.closed
        · rfl
        · rcases hdco hcl with h1 | h1 <;> rw [horch] at h1 <;> cases h1
      refine ⟨hlen, hrcw, hwed, huer, ?_, ?_, haed, hbuf, hpan, hacc⟩
      · intro hr; simp at hr
      · intro hc; rw [hclosed] at hc; cases hc
    next => exact Option.noConfusion h
  | fetchStep =>
    simp only [step] at h
    split at h
    next d rest horch =>
      have hnotall : ¬ (∀ w ∈ s.workers, w = WorkerPhase.exited) := by
        intro hall
        obtain ⟨w, hw⟩ := exists_mem_of_workers_length hlen
        have hcl' := hwed w hw (hall w hw)
        rcases hdco hcl' with h1 | h1 <;> rw [horch] at h1 <;> cases h1
      split at h
      next hcl =>
        rcases hdco hcl with h1 | h1 <;> rw [horch] at h1 <;> cases h1
      next hcl =>
        split at h
        next hlt =>
          injection h with h
          subst h
          refine ⟨hlen, hrcw, hwed, huer, ?_, ?_, ?_, ?_, hpan, ?_⟩
          · intro hr; simp at hr
          · intro hc; exact absurd hc hcl
          · intro hall; exact absurd hall hnotall
          · simp only [List.length_append, List.length_singleton]
            simp only [defsChanCap] at hlt ⊢
            omega
          · rw [idsOfDefs_append, idsOfDefs_append, idsOfDefs_singleton, hacc]
            abel
        next hlt =>
          injection h with h
          subst h
          refine ⟨hlen, hrcw, hwed, huer, ?_, ?_, ?_, hbuf, hpan, hacc⟩
          · intro hr; simp at hr
          · intro hc; exact absurd hc hcl
          · intro hall; exact absurd hall hnotall
    next => exact Option.noConfusion h
  | fetchDone =>
    simp only [step] at h
    split at h
    next horch =>
      injection h with h
      subst h
      have hclosed : s.defsChan.closed = false := by
        cases hcl : s.defsChan.closed
        · rfl
        · rcases hdco hcl with h1 | h1 <;> rw [horch] at h1 <;> cases h1
      refine ⟨hlen, hrcw, hwed, huer, ?_, ?_, haed, hbuf, hpan, hacc⟩
      · intro hr; simp at hr
      · intro hc; rw [hclosed] at hc; cases hc
    next => exact Option.noConfusion h
  | stop =>
    simp only [step] at h
    split at h
    next horch =>
      injection h with h
      subst h
      refine ⟨hlen, hrcw, ?_, huer, ?_, ?_, haed, hbuf, hpan, hacc⟩
      · intro w hw hex; rfl
      · intro hr; simp at hr
      · intro _; exact Or.inl rfl
    next => exact Option.noConfusion h
  | workerRecv i =>
    simp only [step] at h
    split at h
    next heqw =>
      split at h
      next d rest heqb =>
        injection h with h
        subst h
        have hmem : WorkerPhase.waiting ∈ s.workers := List.getElem?_mem heqw
        have hilt : i < s.workers.length := lt_length_of_getElem? heqw
        refine ⟨?_, ?_, ?_, huer, hrue, hdco, ?_, ?_, hpan, ?_⟩
        · simpa using hlen
        · intro hcl
          have := hrcw hcl _ hmem
          simp at this
        · intro w hw hex
          rcases List.mem_or_eq_of_mem_set hw with hw | hw
          · exact hwed w hw hex
          · subst hw; simp at hex
        · intro hall
          have hiw := List.getElem?_set_eq_of_lt
            (WorkerPhase.sending (computeEmbedding i d)) hilt
          have := hall _ (List.getElem?_mem hiw)
          simp at this
        · have := hbuf
          rw [heqb] at this
          simp only [List.length_cons] at this
          simp only [defsChanCap] at this ⊢
          omega
        · rw [heqb, idsOfDefs_cons] at hacc
          rw [workerHeldIds_set_sending heqw]
          have hid : (computeEmbedding i d).DefinitionID = d.ID := rfl
          rw [hid, hacc]
          simp only [← Multiset.singleton_add]
          abel
      next => exact Option.noConfusion h
    next => exact Option.noConfusion h
  | workerSend i =>
    simp only [step] at h
    split at h
    next r heqw =>
      have hmem : WorkerPhase.sending r ∈ s.workers := List.getElem?_mem heqw
      split at h
      next hcl =>
        have := hrcw hcl _ hmem
        simp at this
      next hcl =>
        split at h
        next hlt =>
          injection h with h
          subst h
          have hilt : i < s.workers.length := lt_length_of_getElem? heqw
          refine ⟨by simpa using hlen, ?_, ?_, ?_, hrue, hdco, ?_, hbuf, hpan, ?_⟩
          · intro hclosed; exact absurd hclosed hcl
          · intro w hw hex
            rcases List.mem_or_eq_of_mem_set hw with hw | hw
            · exact hwed w hw hex
            · subst hw; simp at hex
          · intro hu
            rcases huer hu with ⟨hclosed, _⟩
            exact absurd hclosed hcl
          · intro hall
            have hiw := List.getElem?_set_eq_of_lt WorkerPhase.waiting hilt
            have := hall _ (List.getElem?_mem hiw)
            simp at this
          · rw [workerHeldIds_set_unsend heqw] at hacc
            rw [idsOfResults_append, idsOfResults_singleton, hacc]
            simp only [← Multiset.singleton_add]
            abel
        next => exact Option.noConfusion h
    next => exact Option.noConfusion h
  | workerExit i =>
    simp only [step] at h
    split at h
    next heqw =>
      split at h
      next hguard =>
        injection h with h
        subst h
        obtain ⟨hclosed, hdrained⟩ := hguard
        refine ⟨by simpa using hlen, ?_, ?_, huer, hrue, hdco, ?_, hbuf, hpan, ?_⟩
        · intro hcl w hw
          rcases List.mem_or_eq_of_mem_set hw with hw | hw
          · exact hrcw hcl w hw
          · exact hw
        · intro w hw hex
          exact hclosed
        · intro _
          exact hdrained
        · rw [workerHeldIds_set_exit heqw]
          exact hacc
      next => exact Option.noConfusion h
    next => exact Option.noConfusion h
  | closeResults =>
    simp only [step] at h
    split at h
    next hguard =>
      injection h with h
      subst h
      obtain ⟨hcdone, hall⟩ := hguard
      refine ⟨hlen, ?_, hwed, ?_, hrue, hdco, haed, hbuf, hpan, hacc⟩
      · intro _; exact hall
      · intro hu
        rcases huer hu with ⟨_, hb⟩
        exact ⟨rfl, hb⟩
    next => exact Option.noConfusion h
  | updaterRecv =>
    simp only [step] at h
    split at h
    next hup =>
      split at h
      next r rest heqb =>
        injection h with h
        subst h
        refine ⟨hlen, hrcw, hwed, ?_, hrue, hdco, haed, hbuf, hpan, ?_⟩
        · intro hu
          have himp : UpdaterPhase.running = UpdaterPhase.exited := by
            rw [← hup]; exact hu
          simp at himp
        · rw [heqb, idsOfResults_cons] at hacc
          rw [idsOfResults_append, idsOfResults_singleton, hacc]
          simp only [← Multiset.singleton_add]
          abel
      next => exact Option.noConfusion h
    next => exact Option.noConfusion h
  | updaterExit =>
    simp only [step] at h
    split at h
    next hup =>
      split at h
      next hguard =>
        injection h with h
        subst h
        refine ⟨hlen, hrcw, hwed, ?_, ?_, hdco, haed, hbuf, hpan, hacc⟩
        · intro _; exact hguard
        · intro _; rfl
      next => exact Option.noConfusion h
    next => exact Option.noConfusion h
  | orchReturn =>
    simp only [step] at h
    split at h
    next horch =>
      split at h
      next hupd =>
        injection h with h
        subst h
        refine ⟨hlen, hrcw, hwed, huer, ?_, ?_, haed, hbuf, hpan, hacc⟩
        · intro _; exact hupd
        · intro _; exact Or.inr rfl
      next => exact Option.noConfusion h
    next => exact Option.noConfusion h

/-- Every reachable pipeline state satisfies the safety invariant. -/
theorem inv_of_preachable {s : PipelineState} (h : PReachable s) : Inv s := by
  induction h with
  | init => exact inv_init
  | step l _ hstep ih => exact inv_step ih hstep

/-- C1: the shutdown protocol is strictly ordered in every reachable state
of every execution.  The output queue (`resultsChan`) is closed only after
all three workers have permanently exited (`processorsWg` at zero); a
worker exits only after the input queue has been closed; the updater exits
only after the output queue is closed; and when the orchestrator's control
loop has returned, the whole sequence input-close, workers-exit,
output-close, sink-exit has completed.  `panicked = false` records that no
send on a closed queue ever occurs. -/
theorem shutdown_strictly_ordered (s : PipelineState) (hs : PReachable s) :
    (s.resultsChan.closed = true → ∀ w ∈ s.workers, w = WorkerPhase.exited) ∧
    (∀ w ∈ s.workers, w = WorkerPhase.exited → s.defsChan.closed = true) ∧
    (s.updater = UpdaterPhase.exited → s.resultsChan.closed = true) ∧
    (s.orch = OrchPhase.returned →
      s.defsChan.closed = true ∧ (∀ w ∈ s.workers, w = WorkerPhase.exited) ∧
        s.resultsChan.closed = true ∧ s.updater = UpdaterPhase.exited) ∧
    s.panicked = false := by
  have inv := inv_of_preachable hs
  refine ⟨inv.resultsClosedWorkersExited, inv.workerExitedDefsClosed,
    fun hu => (inv.updaterExitedResultsClosed hu).1, ?_, inv.noPanic⟩
  intro hr
  have hu := inv.returnedUpdaterExited hr
  have hrc := (inv.updaterExitedResultsClosed hu).1
  have hall := inv.resultsClosedWorkersExited hrc
  obtain ⟨w, hw⟩ := exists_mem_of_workers_length inv.workersLen
  exact ⟨inv.workerExitedDefsClosed w hw (hall w hw), hall, hrc, hu⟩

/-- Schedule of a complete shutdown with no items in flight. -/
def shutdownSchedule : List PipelineLabel :=
  [ .stop, .workerExit 0, .workerExit 1, .workerExit 2, .closeResults
  , .updaterExit, .orchReturn ]

/-- Final state of `shutdownSchedule`. -/
def shutdownFinalState : PipelineState :=
  (runSchedule shutdownSchedule initState).getD initState

/-- Witness for C1: after a concrete complete shutdown run, the returned
orchestrator implies the fully ordered terminal configuration. -/
theorem shutdown_strictly_ordered_witness :
    shutdownFinalState.defsChan.closed = true ∧
    shutdownFinalState.resultsChan.closed = true ∧
    shutdownFinalState.updater = UpdaterPhase.exited ∧
    shutdownFinalState.panicked = false := by
  obtain ⟨_, _, _, h4, h5⟩ := shutdown_strictly_ordered shutdownFinalState
    (preachable_of_runSchedule shutdownSchedule PReachable.init (by rfl))
  obtain ⟨ha, _, hc, hd⟩ := h4 rfl
  exact ⟨ha, hc, hd, h5⟩

/-- C2 (amended): in every complete execution (one in which the
orchestrator has returned), the multiset of item identifiers received by
the sink equals the multiset of identifiers of the items successfully
enqueued before shutdown — exactly one result per enqueued item, no loss,
no duplication — and the sink received exactly as many results as items
were enqueued.  The two items of a single tick always carry distinct
identifiers; distinctness across the whole run is *not* guaranteed (see
the counterexample: IDs derive from the wall-clock second and repeat for
ticks 60 seconds apart). -/
theorem sink_receives_each_enqueued_exactly_once (s : PipelineState)
    (hs : PReachable s) (hret : s.orch = OrchPhase.returned) :
    idsOfResults s.updaterLog = idsOfDefs s.enqueued ∧
    s.updaterLog.length = s.enqueued.length ∧
    ∀ now : Nat, ((dummyDefinitions now).map (fun d => d.ID)).Nodup := by
  have inv := inv_of_preachable hs
  have hu := inv.returnedUpdaterExited hret
  obtain ⟨hrc, hrb⟩ := inv.updaterExitedResultsClosed hu
  have hall := inv.resultsClosedWorkersExited hrc
  have hdb := inv.allExitedDefsDrained hall
  have hacc := inv.accounting
  rw [hdb, hrb, workerHeldIds_all_exited hall] at hacc
  have hids : idsOfResults s.updaterLog = idsOfDefs s.enqueued := by
    rw [hacc]
    simp [idsOfDefs, idsOfResults]
  refine ⟨hids, ?_, ?_⟩
  · have hcard := congrArg Multiset.card hids
    simpa [idsOfResults, idsOfDefs] using hcard
  · intro now
    simp [dummyDefinitions]

/-- Schedule of a complete execution of one tick with two items, both
processed and persisted before shutdown. -/
def oneTickSchedule : List PipelineLabel :=
  [ .tick 0, .fetchStep, .fetchStep, .fetchDone
  , .workerRecv 0, .workerSend 0, .workerRecv 1, .workerSend 1
  , .stop, .workerExit 0, .workerExit 1, .workerExit 2, .closeResults
  , .updaterRecv, .updaterRecv, .updaterExit, .orchReturn ]

/-- Final state of `oneTickSchedule`. -/
def oneTickFinalState : PipelineState :=
  (runSchedule oneTickSchedule initState).getD initState

/-- Witness for C2 (amended): in the concrete one-tick run the sink's
received identifiers match the enqueued identifiers, with equal counts,
and the identifiers of one tick are pairwise distinct. -/
theorem sink_receives_each_enqueued_exactly_once_witness :
    idsOfResults oneTickFinalState.updaterLog = idsOfDefs oneTickFinalState.enqueued ∧
    oneTickFinalState.updaterLog.length = oneTickFinalState.enqueued.length ∧
    ((dummyDefinitions 75).map (fun d => d.ID)).Nodup := by
  obtain ⟨h1, h2, h3⟩ := sink_receives_each_enqueued_exactly_once oneTickFinalState
    (preachable_of_runSchedule oneTickSchedule PReachable.init (by rfl)) rfl
  exact ⟨h1, h2, h3 75⟩

/-- Schedule with two ticks 60 seconds apart (wall-clock seconds 15 and
75); the ticker fires every 15 seconds, so these are the first and the
fifth tick of one run.  All four discovered items are enqueued, processed
and persisted, then the stop signal arrives and shutdown completes. -/
def twoTickSchedule : List PipelineLabel :=
  [ .tick 15, .fetchStep, .fetchStep, .fetchDone
  , .workerRecv 0, .workerSend 0, .workerRecv 0, .workerSend 0
  , .tick 75, .fetchStep, .fetchStep, .fetchDone
  , .workerRecv 0, .workerSend 0, .workerRecv 0, .workerSend 0
  , .stop, .workerExit 0, .workerExit 1, .workerExit 2, .closeResults
  , .updaterRecv, .updaterRecv, .updaterRecv, .updaterRecv
  , .updaterExit, .orchReturn ]

/-- Final state of `twoTickSchedule`. -/
def twoTickFinalState : PipelineState :=
  (runSchedule twoTickSchedule initState).getD initState

/-- Counterexample to C2 as stated: a complete execution in which four
items were discovered and successfully enqueued before shutdown (none
dropped) and the sink received exactly four results — but their item
identifiers are 1501, 1502, 1501, 1502, not pairwise distinct.  The item
IDs are `time.Now().Second()*100 + k`, and `Second()` takes the same value
at the tick at second 15 and the tick at second 75. -/
theorem sink_ids_not_distinct_counterexample :
    runSchedule twoTickSchedule initState = some twoTickFinalState ∧
    twoTickFinalState.orch = OrchPhase.returned ∧
    twoTickFinalState.droppedLog = [] ∧
    twoTickFinalState.enqueued.length = 4 ∧
    twoTickFinalState.updaterLog.map (fun r => r.DefinitionID)
      = [1501, 1502, 1501, 1502] ∧
    ¬ (twoTickFinalState.updaterLog.map (fun r => r.DefinitionID)).Nodup := by
  refine ⟨rfl, rfl, rfl, rfl, rfl, by decide⟩

/-- C7: the producer's per-item enqueue attempt is non-blocking with
drop-on-full.  In any reachable state in which the fetcher is about to
attempt item `d`, the input queue never exceeds its capacity of 10; if the
queue has free capacity the attempt enqueues `d` (recorded in the enqueue
history) and moves on, and if the queue is full at the moment of the
attempt the attempt drops `d` for this tick (recorded in the drop log) and
moves on — both outcomes are immediate successor states, never a blocked
producer. -/
theorem fetch_attempt_nonblocking (s : PipelineState) (hs : PReachable s)
    (d : DefinitionToEmbed) (rest : List DefinitionToEmbed)
    (horch : s.orch = OrchPhase.fetching (d :: rest)) :
    s.defsChan.buf.length ≤ defsChanCap ∧
    (s.defsChan.buf.length < defsChanCap →
      step s .fetchStep = some { s with
        orch := OrchPhase.fetching rest
      , defsChan := { s.defsChan with buf := s.defsChan.buf ++ [d] }
      , enqueued := s.enqueued ++ [d] }) ∧
    (s.defsChan.buf.length = defsChanCap →
      step s .fetchStep = some { s with
        orch := OrchPhase.fetching rest
      , droppedLog := s.droppedLog ++ [d] }) := by
  have inv := inv_of_preachable hs
  have hclosed : s.defsChan.closed = false := by
    cases hcl : s.defsChan.closed
    · rfl
    · rcases inv.defsClosedOrchDown hcl with h1 | h1 <;> rw [horch] at h1 <;> cases h1
  refine ⟨inv.defsBufBounded, ?_, ?_⟩
  · intro hlt
    simp [step, horch, hclosed, hlt]
  · intro hfull
    have hnlt : ¬ s.defsChan.buf.length < defsChanCap := by omega
    simp [step, horch, hclosed, hnlt]

/-- State in which the orchestrator has just begun the tick at wall-clock
second 5 and is about to attempt the first discovered item. -/
def fetchingState : PipelineState :=
  (runSchedule [.tick 5] initState).getD initState

/-- Witness for C7: in the concrete fetching state the queue is empty, so
the first attempt enqueues the item with ID 501. -/
theorem fetch_attempt_nonblocking_witness :
    step fetchingState .fetchStep = some { fetchingState with
      orch := OrchPhase.fetching
        [{ ID := 502, Text := "Another sample definition text for embedding." }]
    , defsChan := { fetchingState.defsChan with
        buf := fetchingState.defsChan.buf
          ++ [{ ID := 501, Text := "Definition fetched at second 5" }] }
    , enqueued := fetchingState.enqueued
        ++ [{ ID := 501, Text := "Definition fetched at second 5" }] } := by
  obtain ⟨_, h2, _⟩ := fetch_attempt_nonblocking fetchingState
    (preachable_of_runSchedule [.tick 5] PReachable.init (by rfl))
    { ID := 501, Text := "Definition fetched at second 5" }
    [{ ID := 502, Text := "Another sample definition text for embedding." }]
    rfl
  exact h2 (by decide)

/-- The source's per-tick send loop over the discovered items: a
non-blocking enqueue attempt per item, dropping on a full queue. -/
def sendAllFrom (s : PipelineState) : List DefinitionToEmbed → PipelineState
  | [] => s
  | d :: rest =>
    if s.defsChan.buf.length < defsChanCap then
      sendAllFrom { s with
        defsChan := { s.defsChan with buf := s.defsChan.buf ++ [d] }
      , enqueued := s.enqueued ++ [d] } rest
    else
      sendAllFrom { s with droppedLog := s.droppedLog ++ [d] } rest

theorem sendAllFrom_orch (s : PipelineState) (defs : List DefinitionToEmbed) :
    (sendAllFrom s defs).orch = s.orch := by
  induction defs generalizing s with
  | nil => rfl
  | cons d rest ih =>
    simp only [sendAllFrom]
    split
    · rw [ih]
    · rw [ih]

/-- Modelled from the spec: the fallible discovery collaborator
`DiscoverPending(limit) -> [WorkItem]` ("Failure is reported, non-fatal to
the tick") is not present in the repository — `fetchAndSendDefinitions`
substitutes a hardcoded simulation for the real database query described
in its comments — so the discovery outcome is an `Except` value supplied
by the environment.  `tickWithDiscovery` is one orchestrator tick against
that collaborator: on discovery failure the error is the reported value
and nothing else happens; on success each discovered item gets the
non-blocking enqueue attempt of the source. -/
def tickWithDiscovery (disc : Except String (List DefinitionToEmbed))
    (s : PipelineState) : PipelineState × Option String :=
  match disc with
  | .error e => (s, some e)
  | .ok defs => (sendAllFrom s defs, none)

/-- C8: a failing discovery step is reported to the caller as a returned
error value, the pipeline state is untouched, and the orchestrator's phase
is unchanged by any tick — a `running` control loop is still `running`
afterwards and proceeds to the next tick rather than stopping. -/
theorem discovery_failure_reported_tick_continues
    (s : PipelineState) (e : String) (hrun : s.orch = OrchPhase.running) :
    (tickWithDiscovery (Except.error e) s).2 = some e ∧
    (tickWithDiscovery (Except.error e) s).1 = s ∧
    (∀ disc : Except String (List DefinitionToEmbed),
      (tickWithDiscovery disc s).1.orch = OrchPhase.running) := by
  refine ⟨rfl, rfl, ?_⟩
  intro disc
  cases disc with
  | error e' => exact hrun
  | ok defs =>
    show (sendAllFrom s defs).orch = OrchPhase.running
    rw [sendAllFrom_orch]
    exact hrun

/-- Witness for C8: against an environment whose discovery fails with
`database unavailable`, the tick reports exactly that error, changes
nothing, and leaves the control loop running; a succeeding tick also
leaves it running. -/
theorem discovery_failure_reported_tick_continues_witness :
    (tickWithDiscovery (Except.error "database unavailable") initState).2
      = some "database unavailable" ∧
    (tickWithDiscovery (Except.error "database unavailable") initState).1
      = initState ∧
    (tickWithDiscovery (Except.ok (dummyDefinitions 3)) initState).1.orch
      = OrchPhase.running := by
  obtain ⟨h1, h2, h3⟩ := discovery_failure_reported_tick_continues initState
    "database unavailable" rfl
  exact ⟨h1, h2, h3 _⟩

end Background
